import Mathlib

/-!
Verification of the bpprof heap-profile report generator (bpprof.go).

The Go source is shallowly embedded below.  Machine integers are modelled
exactly: Go `int64` values are `Int` with every arithmetic step wrapped into
the interval `[-2^63, 2^63)` (`wrap64`), and Go `uintptr`/`uint64` values are
`Nat` reduced modulo `2^64` wherever the source can overflow.  The binary
`float64` arithmetic inside `formatSize` only ever divides by 1024, which is
exact in binary floating point, so the running value is represented exactly
as the integer pair `size / 1024^k`.
-/

/-- Two's-complement wraparound of a mathematical integer into the Go
`int64` range `[-2^63, 2^63)`. -/
def wrap64 (n : Int) : Int := (n + 2 ^ 63) % 2 ^ 64 - 2 ^ 63

/-- Go `int64` addition (wrapping). -/
def i64add (a b : Int) : Int := wrap64 (a + b)

/-- Go `int64` subtraction (wrapping). -/
def i64sub (a b : Int) : Int := wrap64 (a - b)

/-- The value `n` fits in a Go `int64` without wrapping. -/
def int64Range (n : Int) : Prop := -(2 ^ 63) ≤ n ∧ n < 2 ^ 63

instance (n : Int) : Decidable (int64Range n) := by
  unfold int64Range; infer_instance

/-- Go `uintptr` (64-bit unsigned) subtraction: `a - b` modulo `2^64`. -/
def usub64 (a b : Nat) : Nat := (a + (2 ^ 64 - b % 2 ^ 64)) % 2 ^ 64

/-- Reinterpretation of a Go `uint64` value as `int64`
(the `int64(s.PauseNs[i])` conversion). -/
def toInt64 (n : Nat) : Int :=
  if n % 2 ^ 64 < 2 ^ 63 then (n % 2 ^ 64 : Nat) else (n % 2 ^ 64 : Nat) - 2 ^ 64

/-- `runtime.MemProfileRecord`: the four cumulative counters are Go `int64`
values and `stack0` is the fixed `Stack0 [32]uintptr` array of return
addresses (modelled as the list of its entries, trailing zeros included). -/
structure MemProfileRecord where
  allocBytes : Int
  freeBytes : Int
  allocObjects : Int
  freeObjects : Int
  stack0 : List Nat
deriving DecidableEq

/-- `(*MemProfileRecord).InUseBytes()`: `AllocBytes - FreeBytes`. -/
def MemProfileRecord.inUseBytes (r : MemProfileRecord) : Int :=
  i64sub r.allocBytes r.freeBytes

/-- `(*MemProfileRecord).InUseObjects()`: `AllocObjects - FreeObjects`. -/
def MemProfileRecord.inUseObjects (r : MemProfileRecord) : Int :=
  i64sub r.allocObjects r.freeObjects

/-- One step of the stack hash in `Heap`:
`h += pc; h += h << 10; h ^= h >> 6` on `uintptr`. -/
def hashStep (h pc : Nat) : Nat :=
  let h1 := (h + pc) % 2 ^ 64
  let h2 := (h1 + (h1 <<< 10)) % 2 ^ 64
  h2 ^^^ (h2 >>> 6)

/-- The aggregation hash computed by `Heap` over `r.Stack0`:
fold `hashStep` over the addresses, then `h += h << 3; h ^= h >> 11`. -/
def stackHash (stk : List Nat) : Nat :=
  let h := stk.foldl hashStep 0
  let h1 := (h + (h <<< 3)) % 2 ^ 64
  h1 ^^^ (h1 >>> 11)

/-- The merge performed by `Heap` when a record's key is already present:
the incoming record `r` absorbs the stored record's four counters
(`r.AllocBytes += pm[h].AllocBytes` and so on), keeping `r`'s stack. -/
def mergeRec (old r : MemProfileRecord) : MemProfileRecord :=
  { r with
    allocBytes := i64add r.allocBytes old.allocBytes
    freeBytes := i64add r.freeBytes old.freeBytes
    allocObjects := i64add r.allocObjects old.allocObjects
    freeObjects := i64add r.freeObjects old.freeObjects }

/-- Lookup in the association-list model of the Go map `pm`. -/
def lookupKey (h : Nat) : List (Nat × MemProfileRecord) → Option MemProfileRecord
  | [] => none
  | (k, v) :: t => if k = h then some v else lookupKey h t

/-- Go map assignment `pm[h] = v`: replace the entry if the key is present,
otherwise add it. -/
def setKey (h : Nat) (v : MemProfileRecord) :
    List (Nat × MemProfileRecord) → List (Nat × MemProfileRecord)
  | [] => [(h, v)]
  | (k, w) :: t => if k = h then (k, v) :: t else (k, w) :: setKey h v t

/-- One iteration of the deduplication loop of `Heap`: hash the record's
stack, merge with any existing entry under that key, store the result. -/
def insertRecord (pm : List (Nat × MemProfileRecord)) (r : MemProfileRecord) :
    List (Nat × MemProfileRecord) :=
  let h := stackHash r.stack0
  match lookupKey h pm with
  | some old => setKey h (mergeRec old r) pm
  | none => setKey h r pm

/-- The deduplication pass of `Heap`: fold every captured record into the
keyed map `pm`. -/
def dedup (p : List MemProfileRecord) : List (Nat × MemProfileRecord) :=
  p.foldl insertRecord []

/-- The record list `Heap` rebuilds from the map (`for _, r := range pm`). -/
def dedupRecords (p : List MemProfileRecord) : List MemProfileRecord :=
  (dedup p).map Prod.snd

/-- The comparator of Go's `byInUseBytes` sort order: `a` may precede `b`
exactly when `Less(b, a)` fails, i.e. in-use bytes are non-increasing. -/
def byInUseBytes (a b : MemProfileRecord) : Prop := b.inUseBytes ≤ a.inUseBytes

/-- The comparator of Go's `byAllocBytes` sort order. -/
def byAllocBytes (a b : MemProfileRecord) : Prop := b.allocBytes ≤ a.allocBytes

/-- The comparator of Go's `byAllocObjects` sort order. -/
def byAllocObjects (a b : MemProfileRecord) : Prop := b.allocObjects ≤ a.allocObjects

/-- The comparator of Go's `byInUseObjects` sort order. -/
def byInUseObjects (a b : MemProfileRecord) : Prop := b.inUseObjects ≤ a.inUseObjects

instance : DecidableRel byInUseBytes := fun _ _ => Int.decLe _ _
instance : DecidableRel byAllocBytes := fun _ _ => Int.decLe _ _
instance : DecidableRel byAllocObjects := fun _ _ => Int.decLe _ _
instance : DecidableRel byInUseObjects := fun _ _ => Int.decLe _ _

instance : IsTotal MemProfileRecord byInUseBytes := ⟨fun a b => le_total b.inUseBytes a.inUseBytes⟩
instance : IsTotal MemProfileRecord byAllocBytes := ⟨fun a b => le_total b.allocBytes a.allocBytes⟩
instance : IsTotal MemProfileRecord byAllocObjects := ⟨fun a b => le_total b.allocObjects a.allocObjects⟩
instance : IsTotal MemProfileRecord byInUseObjects := ⟨fun a b => le_total b.inUseObjects a.inUseObjects⟩

instance : IsTrans MemProfileRecord byInUseBytes := ⟨fun _ _ _ h1 h2 => le_trans h2 h1⟩
instance : IsTrans MemProfileRecord byAllocBytes := ⟨fun _ _ _ h1 h2 => le_trans h2 h1⟩
instance : IsTrans MemProfileRecord byAllocObjects := ⟨fun _ _ _ h1 h2 => le_trans h2 h1⟩
instance : IsTrans MemProfileRecord byInUseObjects := ⟨fun _ _ _ h1 h2 => le_trans h2 h1⟩

/-- The sorting step of `Heap`: the `switch r.FormValue("sort")` selecting one
of the four comparators (default `byInUseBytes`).  Go's `sort.Sort` yields a
permutation ordered by the chosen comparator; it is modelled by insertion
sort, a valid implementation of that contract. -/
def sortRecords (key : String) (p : List MemProfileRecord) : List MemProfileRecord :=
  if key = "allocbytes" then List.insertionSort byAllocBytes p
  else if key = "allocobjects" then List.insertionSort byAllocObjects p
  else if key = "inuseobjects" then List.insertionSort byInUseObjects p
  else List.insertionSort byInUseBytes p

/-- The deduplicated, sorted record list rendered by `Heap`, one per-record
output block each. -/
def heapRendered (key : String) (p : List MemProfileRecord) : List MemProfileRecord :=
  sortRecords key (dedupRecords p)

/-- One iteration of the totals loop of `Heap`:
`total.AllocBytes += r.AllocBytes; total.AllocObjects += r.AllocObjects;
total.FreeBytes += r.FreeBytes; total.FreeObjects += r.FreeObjects`. -/
def totalStepFn (t r : MemProfileRecord) : MemProfileRecord :=
  { t with
    allocBytes := i64add t.allocBytes r.allocBytes
    allocObjects := i64add t.allocObjects r.allocObjects
    freeBytes := i64add t.freeBytes r.freeBytes
    freeObjects := i64add t.freeObjects r.freeObjects }

/-- The totals loop of `Heap` over the rendered records, starting from the
zero `runtime.MemProfileRecord`. -/
def totalRecord (p : List MemProfileRecord) : MemProfileRecord :=
  p.foldl totalStepFn ⟨0, 0, 0, 0, List.replicate 32 0⟩

/-- The `total` record whose figures `Heap` prints in the header lines. -/
def heapTotal (key : String) (p : List MemProfileRecord) : MemProfileRecord :=
  totalRecord (heapRendered key p)

/-- The four figures of the header line
`heap profile: <n>: <b> [<N>: <B>] @ heap/...`:
in-use objects, in-use bytes, allocated objects, allocated bytes. -/
def headerCounts (key : String) (p : List MemProfileRecord) : Int × Int × Int × Int :=
  ((heapTotal key p).inUseObjects, (heapTotal key p).inUseBytes,
    (heapTotal key p).allocObjects, (heapTotal key p).allocBytes)

/-- The unit table `units = []string{"B", "KB", "MB", "GB", "TB"}`. -/
def units : List String := ["B", "KB", "MB", "GB", "TB"]

/-- Round the rational `num / den` (`den > 0`) to the nearest integer, ties
to even: the rounding `fmt` applies when printing a `float64` with a fixed
number of decimals. -/
def roundHalfEven (num den : Int) : Int :=
  let q := num.fdiv den
  let r := num - q * den
  if 2 * r < den then q
  else if den < 2 * r then q + 1
  else if q % 2 = 0 then q else q + 1

/-- Two-digit rendering of a value below 100 (the fraction part of
`%.2f`). -/
def pad2 (m : Nat) : String :=
  if m < 10 then "0" ++ toString m else toString m

/-- `fmt.Sprintf("%.2f", num/den)`: two-decimal fixed-point rendering of the
exact value `num / den`. -/
def fmt2Scaled (num den : Int) : String :=
  let n := roundHalfEven (100 * num) den
  let sign := if n < 0 then "-" else ""
  let m := n.natAbs
  sign ++ toString (m / 100) ++ "." ++ pad2 (m % 100)

/-- `fmt.Sprintf("%.0f", num/den)`: integer rendering of the exact value
`num / den`. -/
def fmt0Scaled (num den : Int) : String :=
  let n := roundHalfEven num den
  (if n < 0 then "-" else "") ++ toString n.natAbs

/-- The loop of `formatSize`: after `k` divisions the running `float64` is
exactly `size / 1024^k` (division by 1024 is exact in binary floating
point), so the comparison `s < 1000` is `size < 1000 * 1024^k`. -/
def formatSizeLoop (size : Int) : Nat → List String → String
  | k, [] => fmt0Scaled size (1024 ^ k) ++ "TB"
  | k, u :: rest =>
      if size < 1000 * 1024 ^ k then fmt2Scaled size (1024 ^ k) ++ u
      else formatSizeLoop size (k + 1) rest

/-- `formatSize(size int64) string`. -/
def formatSize (size : Int) : String := formatSizeLoop size 0 units

/-- The index `(s.NumGC+255) % 256` of the most recent pause in the circular
`PauseNs` buffer (`NumGC` is `uint32`, so the sum wraps modulo `2^32`). -/
def mostRecentIdx (numGC : Nat) : Nat := ((numGC + 255) % 2 ^ 32) % 256

/-- The reordered pause list built by `Heap` from `s.PauseNs`: a first loop
`for i := (s.NumGC+255)%256; i > 0; i--` emits indices `m, ..., 1`, a second
loop `for i := uint32(255); i > (s.NumGC+255)%256; i--` emits `255, ...,
m+1`.  Each entry is `time.Duration(int64(s.PauseNs[i]))`. -/
def pauseNsList (numGC : Nat) (pause : Nat → Nat) : List Int :=
  let m := mostRecentIdx numGC
  ((List.range m).map fun j => toInt64 (pause (m - j))) ++
    ((List.range (255 - m)).map fun j => toInt64 (pause (255 - j)))

/-- The `runtime.Func` data `printStackRecord` consumes: entry address,
name, and the `FileLine` query. -/
structure GoFunc where
  entry : Nat
  name : String
  fileLine : Nat → String × Nat

/-- The symbolization environment of `printStackRecord`:
`runtime.FuncForPC` and `runtime.GOARCH`. -/
structure SymEnv where
  funcForPC : Nat → Option GoFunc
  arch : String

/-- `tracepc` adjustment in `printStackRecord`: back up to the call
instruction (by 1 byte on 386/amd64, 4 otherwise) for non-innermost frames
past their function entry, except right after a `runtime.panic` frame. -/
def tracePC (arch : String) (i pc entry : Nat) (wasPanic : Bool) : Nat :=
  if 0 < i ∧ entry < pc ∧ wasPanic = false then
    usub64 pc (if arch = "386" ∨ arch = "amd64" then 1 else 4)
  else pc

/-- One output line of `printStackRecord`: an unresolvable bare address
(`#\t%#x`), a resolved frame (`#\t%#x\t%s+%#x\t%s:%d`), or the trailing
empty line. -/
inductive StackLine where
  | raw (pc : Nat)
  | frame (pc : Nat) (name : String) (offset : Nat) (file : String) (line : Nat)
  | blank
deriving DecidableEq

/-- The frame loop of `printStackRecord`, carrying the frame index `i`, the
`show` flag (`shw`) and the `wasPanic` flag.  Returns the lines the loop
writes (in emission order) together with the final `show` and `wasPanic`
flags. -/
def printLoop (env : SymEnv) : List Nat → Nat → Bool → Bool → List StackLine × Bool × Bool
  | [], _, shw, wasPanic => ([], shw, wasPanic)
  | pc :: rest, i, shw, wasPanic =>
    match env.funcForPC pc with
    | none =>
        let r := printLoop env rest (i + 1) true false
        (StackLine.raw pc :: r.1, r.2)
    | some f =>
      let tracepc := tracePC env.arch i pc f.entry wasPanic
      let file := (f.fileLine tracepc).1
      let line := (f.fileLine tracepc).2
      let wasPanic2 := f.name == "runtime.panic"
      if f.name == "runtime.goexit" || (!shw && List.isPrefixOf "runtime.".data f.name.data) then
        printLoop env rest (i + 1) shw wasPanic2
      else
        let r := printLoop env rest (i + 1) true wasPanic2
        (StackLine.frame pc f.name (usub64 pc f.entry) file line :: r.1, r.2)

/-- `printStackRecord(w, stk, allFrames)`: run the frame loop; if nothing
was shown, rerun it once with every frame included (the `allFrames = true`
pass always ends with `show` set, so the source's recursion stops there);
finally write the blank separator line. -/
def printStackRecord (env : SymEnv) (stk : List Nat) (allFrames : Bool) : List StackLine :=
  let r := printLoop env stk 0 allFrames false
  if r.2.1 = false then (printLoop env stk 0 true false).1 ++ [StackLine.blank]
  else r.1 ++ [StackLine.blank]

/-- A synthetic `PauseNs` buffer after a single collection: the pause of the
only (hence most recent) collection sits at index 0, the rest of the
circular buffer is still zero. -/
def pauseBufOne : Nat → Nat := fun i => if i = 0 then 42 else 0

/-- Claim C4 (corrected part): `formatSize(1024*1024*1024*1024*2)` returns
`"2.00TB"`, a value that ends in `"TB"` but is rendered with two decimal
places, contradicting the claimed no-decimal rendering. -/
theorem formatSize_two_decimals_TB :
    formatSize (1024 * 1024 * 1024 * 1024 * 2) = "2.00TB" ∧
    ((formatSize (1024 * 1024 * 1024 * 1024 * 2)).data.contains '.') = true := by
  decide

/-- Claim C4 (amended): `formatSize(999) = "999.00B"` and
`formatSize(1024) = "1.00KB"` hold, but `formatSize(1024*1024*1024*1024*2)`
is `"2.00TB"` — still two decimal places.  The no-decimal branch is reached
only when the value still exceeds 1000 after five divisions, and then it
renders `size / 1024^5`, e.g. `formatSize(1000*1024^4) = "1TB"`. -/
theorem formatSize_spec_values :
    formatSize 999 = "999.00B" ∧ formatSize 1024 = "1.00KB" ∧
    formatSize (1024 * 1024 * 1024 * 1024 * 2) = "2.00TB" ∧
    formatSize (1000 * 1024 * 1024 * 1024 * 1024) = "1TB" := by
  decide

/-- Claim C9 (corrected part): `formatSize 1019 = "1.00KB"`: the rendered
numeric part reaches 1.00, so it is not below 1.00 for the whole range
1000..1023. -/
theorem formatSize_1019_rounds_to_one :
    formatSize 1019 = "1.00KB" ∧
    (List.isPrefixOf "0.".data (formatSize 1019).data) = false := by
  decide

/-- Claim C9 (amended): for 1000 ≤ size ≤ 1023 the unit is always `"KB"`
(never `"B"`, since the unit threshold is 1000 while the divisor is 1024):
sizes 1000..1008 render `"0.98KB"`, 1009..1018 render `"0.99KB"`, and
1019..1023 round up to `"1.00KB"`, so the numeric part stays below 1.00
exactly up to size 1018. -/
theorem formatSize_1000_to_1023_KB :
    ∀ n : Nat, n < 24 →
      formatSize (1000 + (n : Int)) =
        (if n < 9 then "0.98" else if n < 19 then "0.99" else "1.00") ++ "KB" := by
  decide

/-- Witness for `formatSize_1000_to_1023_KB` at size 1000. -/
theorem formatSize_1000_to_1023_KB_witness : formatSize 1000 = "0.98KB" := by
  have h := formatSize_1000_to_1023_KB 0 (by decide)
  simpa using h

set_option maxRecDepth 4000 in
/-- Claim C5 (code bug): with `NumGC = 1` the most recent (and only) pause
is at index `(NumGC+255) % 256 = 0` of the circular buffer, but the two
emission loops (`i > 0` and `i > (NumGC+255)%256`) both stop before index 0:
the emitted sequence is the 255 zero entries at indices 255..1, the recorded
pause 42 never appears, and the first element is the oldest entry rather
than the newest. -/
theorem pauseNs_drops_most_recent :
    mostRecentIdx 1 = 0 ∧ pauseBufOne 0 = 42 ∧
    pauseNsList 1 pauseBufOne = List.replicate 255 0 ∧
    ¬((42 : Int) ∈ pauseNsList 1 pauseBufOne) ∧
    (pauseNsList 1 pauseBufOne).length = 255 := by
  decide

/-- The hash described by the specification, written independently of the
source: start from `h = 0`; for each stack address `pc` in order compute
`h := h + pc`, `h := h + (h << 10)`, `h := h xor (h >> 6)`; finish with
`h := h + (h << 3)`, `h := h xor (h >> 11)`, all on 64 bits (shifts spelled
as multiplication/division by powers of two). -/
def specHashFold : Nat → List Nat → Nat
  | h, [] => h
  | h, pc :: rest =>
      let h1 := (h + pc) % 2 ^ 64
      let h2 := (h1 + h1 * 2 ^ 10) % 2 ^ 64
      let h3 := h2 ^^^ (h2 / 2 ^ 6)
      specHashFold h3 rest

/-- Finalization of the spec-described hash. -/
def specHash (stk : List Nat) : Nat :=
  let h := specHashFold 0 stk
  let h1 := (h + h * 2 ^ 3) % 2 ^ 64
  h1 ^^^ (h1 / 2 ^ 11)

theorem specHashFold_eq_foldl (l : List Nat) :
    ∀ h : Nat, specHashFold h l = l.foldl hashStep h := by
  induction l with
  | nil => intro h; rfl
  | cons pc rest ih =>
      intro h
      simp only [specHashFold, List.foldl_cons, hashStep, Nat.shiftLeft_eq,
        Nat.shiftRight_eq_div_pow]
      exact ih _

theorem specHash_eq_stackHash (stk : List Nat) : specHash stk = stackHash stk := by
  simp only [specHash, stackHash, specHashFold_eq_foldl, Nat.shiftLeft_eq,
    Nat.shiftRight_eq_div_pow]

/-- Claim C6: each iteration of the deduplication loop stores and merges its
record under exactly the spec-described 64-bit hash of the record's stack
(shift-left-10 / xor-shift-right-6 per element, shift-left-3 /
xor-shift-right-11 finalization). -/
theorem dedup_key_is_spec_hash (pm : List (Nat × MemProfileRecord)) (r : MemProfileRecord) :
    insertRecord pm r =
      setKey (specHash r.stack0)
        (match lookupKey (specHash r.stack0) pm with
          | some old => mergeRec old r
          | none => r) pm := by
  rw [specHash_eq_stackHash]
  rcases h : lookupKey (stackHash r.stack0) pm with _ | old <;>
    simp [insertRecord, h]

/-- Claim C3: for each `sort` value the rendered records appear in
non-increasing order of the corresponding metric — cumulative allocated
bytes for `allocbytes`, cumulative allocated objects for `allocobjects`,
in-use objects for `inuseobjects`, and in-use bytes (allocated minus freed)
for every other value including `inuse` and the empty (absent) value. -/
theorem Heap_sorted_by_requested_metric (key : String) (p : List MemProfileRecord) :
    (key = "allocbytes" →
      (heapRendered key p).Pairwise fun a b => b.allocBytes ≤ a.allocBytes) ∧
    (key = "allocobjects" →
      (heapRendered key p).Pairwise fun a b => b.allocObjects ≤ a.allocObjects) ∧
    (key = "inuseobjects" →
      (heapRendered key p).Pairwise fun a b => b.inUseObjects ≤ a.inUseObjects) ∧
    (key ≠ "allocbytes" → key ≠ "allocobjects" → key ≠ "inuseobjects" →
      (heapRendered key p).Pairwise fun a b => b.inUseBytes ≤ a.inUseBytes) := by
  refine ⟨?_, ?_, ?_, ?_⟩
  · intro h; subst h
    simp only [heapRendered, sortRecords, if_pos rfl]
    exact List.sorted_insertionSort byAllocBytes _
  · intro h; subst h
    simp only [heapRendered, sortRecords, String.reduceEq, if_false, if_pos rfl]
    exact List.sorted_insertionSort byAllocObjects _
  · intro h; subst h
    simp only [heapRendered, sortRecords, String.reduceEq, if_false, if_pos rfl]
    exact List.sorted_insertionSort byInUseObjects _
  · intro h1 h2 h3
    simp only [heapRendered, sortRecords, if_neg h1, if_neg h2, if_neg h3]
    exact List.sorted_insertionSort byInUseBytes _

/-- Witness for `Heap_sorted_by_requested_metric`: the default order on a
concrete two-record profile. -/
theorem Heap_sorted_by_requested_metric_witness :
    (heapRendered "" [⟨1, 0, 1, 0, [3]⟩, ⟨9, 0, 1, 0, [4]⟩]).Pairwise
      (fun a b => b.inUseBytes ≤ a.inUseBytes) :=
  (Heap_sorted_by_requested_metric "" [⟨1, 0, 1, 0, [3]⟩, ⟨9, 0, 1, 0, [4]⟩]).2.2.2
    (by decide) (by decide) (by decide)

theorem printLoop_cons_shown (env : SymEnv) (rest : List Nat) (i : Nat)
    (wp : Bool) (pc : Nat) (f : GoFunc)
    (hf : env.funcForPC pc = some f) (hgx : f.name ≠ "runtime.goexit") :
    printLoop env (pc :: rest) i true wp =
      (StackLine.frame pc f.name (usub64 pc f.entry)
          (f.fileLine (tracePC env.arch i pc f.entry wp)).1
          (f.fileLine (tracePC env.arch i pc f.entry wp)).2 ::
        (printLoop env rest (i + 1) true (f.name == "runtime.panic")).1,
       (printLoop env rest (i + 1) true (f.name == "runtime.panic")).2) := by
  have hb : (f.name == "runtime.goexit") = false := by
    simpa using hgx
  simp [printLoop, hf, hb]

/-- An amd64 environment with a single function whose body spans addresses
above its entry 40. -/
def envAdj : SymEnv :=
  { arch := "amd64"
  , funcForPC := fun pc =>
      if pc = 100 then some ⟨40, "main.f", fun t => ("f.go", t)⟩ else none }

/-- An amd64 environment in which the outer frame's address coincides with
its function's entry point. -/
def envEntry : SymEnv :=
  { arch := "amd64"
  , funcForPC := fun pc =>
      if pc = 50 then some ⟨50, "main.g", fun t => ("g.go", t)⟩
      else if pc = 100 then some ⟨100, "main.f", fun t => ("f.go", t)⟩
      else none }

/-- Claim C7 (corrected part): on amd64 the non-innermost frame at address
100 would, per the claim, be looked up at `100 - 1 = 99`; but its function
entry is also 100, so the source's extra `pc > f.Entry()` guard leaves the
lookup address at 100 — the identity file/line query reports line 100, not
99. -/
theorem frame_lookup_entry_counterexample :
    printStackRecord envEntry [50, 100] false =
      [StackLine.frame 50 "main.g" 0 "g.go" 50,
       StackLine.frame 100 "main.f" 0 "f.go" 100, StackLine.blank] ∧
    usub64 100 1 = 99 ∧ (100 : Nat) ≠ 99 := by
  decide

/-- Claim C7 (amended): in the frame loop, a resolvable, printed frame is
looked up at an address backed up by 1 byte on 386/amd64 and by 4 bytes
elsewhere exactly when the frame is not the innermost, its address strictly
exceeds the function entry, and the previous frame was not
`runtime.panic`; immediately after a `runtime.panic` frame, at the
innermost frame, and at a frame sitting at (or below) its function entry
the lookup address is the frame address itself. -/
theorem frame_lookup_adjustment (env : SymEnv) (rest : List Nat) (i : Nat)
    (wp : Bool) (pc : Nat) (f : GoFunc)
    (hf : env.funcForPC pc = some f) (hgx : f.name ≠ "runtime.goexit") :
    (0 < i → f.entry < pc → wp = false →
      printLoop env (pc :: rest) i true wp =
        (StackLine.frame pc f.name (usub64 pc f.entry)
            (f.fileLine (usub64 pc (if env.arch = "386" ∨ env.arch = "amd64" then 1 else 4))).1
            (f.fileLine (usub64 pc (if env.arch = "386" ∨ env.arch = "amd64" then 1 else 4))).2 ::
          (printLoop env rest (i + 1) true (f.name == "runtime.panic")).1,
         (printLoop env rest (i + 1) true (f.name == "runtime.panic")).2)) ∧
    (wp = true →
      printLoop env (pc :: rest) i true wp =
        (StackLine.frame pc f.name (usub64 pc f.entry)
            (f.fileLine pc).1 (f.fileLine pc).2 ::
          (printLoop env rest (i + 1) true (f.name == "runtime.panic")).1,
         (printLoop env rest (i + 1) true (f.name == "runtime.panic")).2)) ∧
    (i = 0 →
      printLoop env (pc :: rest) i true wp =
        (StackLine.frame pc f.name (usub64 pc f.entry)
            (f.fileLine pc).1 (f.fileLine pc).2 ::
          (printLoop env rest (i + 1) true (f.name == "runtime.panic")).1,
         (printLoop env rest (i + 1) true (f.name == "runtime.panic")).2)) ∧
    (pc ≤ f.entry →
      printLoop env (pc :: rest) i true wp =
        (StackLine.frame pc f.name (usub64 pc f.entry)
            (f.fileLine pc).1 (f.fileLine pc).2 ::
          (printLoop env rest (i + 1) true (f.name == "runtime.panic")).1,
         (printLoop env rest (i + 1) true (f.name == "runtime.panic")).2)) := by
  refine ⟨fun hi hpc hwp => ?_, fun hwp => ?_, fun hi => ?_, fun hpc => ?_⟩
  · rw [printLoop_cons_shown env rest i wp pc f hf hgx]
    have ht : tracePC env.arch i pc f.entry wp =
        usub64 pc (if env.arch = "386" ∨ env.arch = "amd64" then 1 else 4) := by
      subst hwp; simp [tracePC, hi, hpc]
    rw [ht]
  · rw [printLoop_cons_shown env rest i wp pc f hf hgx]
    have ht : tracePC env.arch i pc f.entry wp = pc := by
      subst hwp; simp [tracePC]
    rw [ht]
  · rw [printLoop_cons_shown env rest i wp pc f hf hgx]
    have ht : tracePC env.arch i pc f.entry wp = pc := by
      subst hi; simp [tracePC]
    rw [ht]
  · rw [printLoop_cons_shown env rest i wp pc f hf hgx]
    have ht : tracePC env.arch i pc f.entry wp = pc := by
      have hn : ¬ f.entry < pc := not_lt.mpr hpc
      simp [tracePC, hn]
    rw [ht]

/-- Witness for `frame_lookup_adjustment`: the backed-up lookup of a
concrete non-innermost amd64 frame past its entry. -/
theorem frame_lookup_adjustment_witness :
    printLoop envAdj [100] 1 true false =
      ([StackLine.frame 100 "main.f" 60 "f.go" 99], true, false) := by
  have h := (frame_lookup_adjustment envAdj [] 1 false
      100 ⟨40, "main.f", fun t => ("f.go", t)⟩ rfl (by decide)).1
    (by decide) (by decide) rfl
  rw [h]
  decide

theorem printLoop_show_true (env : SymEnv) (stk : List Nat) :
    ∀ (i : Nat) (w : Bool), (printLoop env stk i true w).2.1 = true := by
  induction stk with
  | nil => intro i w; rfl
  | cons pc rest ih =>
      intro i w
      cases h : env.funcForPC pc with
      | none => simp [printLoop, h, ih]
      | some f =>
          simp only [printLoop, h]
          by_cases hc : (f.name == "runtime.goexit" ||
              (!true && List.isPrefixOf "runtime.".data f.name.data)) = true
          · rw [if_pos hc]; exact ih _ _
          · rw [if_neg hc]; exact ih _ _

theorem printLoop_raw_mem (env : SymEnv) (stk : List Nat) :
    ∀ (i : Nat) (s w : Bool) (pc : Nat), pc ∈ stk → env.funcForPC pc = none →
      StackLine.raw pc ∈ (printLoop env stk i s w).1 := by
  induction stk with
  | nil => intro i s w pc h; cases h
  | cons q rest ih =>
      intro i s w pc hmem hf
      rcases List.mem_cons.mp hmem with rfl | hmem2
      · simp [printLoop, hf]
      · cases h : env.funcForPC q with
        | none =>
            simp only [printLoop, h]
            exact List.mem_cons_of_mem _ (ih _ _ _ _ hmem2 hf)
        | some f =>
            simp only [printLoop, h]
            by_cases hc : (f.name == "runtime.goexit" ||
                (!s && List.isPrefixOf "runtime.".data f.name.data)) = true
            · rw [if_pos hc]; exact ih _ _ _ _ hmem2 hf
            · rw [if_neg hc]
              exact List.mem_cons_of_mem _ (ih _ _ _ _ hmem2 hf)

theorem printLoop_frame_mem (env : SymEnv) (stk : List Nat) :
    ∀ (i : Nat) (w : Bool) (pc : Nat) (f : GoFunc), pc ∈ stk →
      env.funcForPC pc = some f → f.name ≠ "runtime.goexit" →
      ∃ file line, StackLine.frame pc f.name (usub64 pc f.entry) file line ∈
        (printLoop env stk i true w).1 := by
  induction stk with
  | nil => intro i w pc f h; cases h
  | cons q rest ih =>
      intro i w pc f hmem hf hgx
      rcases List.mem_cons.mp hmem with rfl | hmem2
      · rw [printLoop_cons_shown env rest i w pc f hf hgx]
        exact ⟨_, _, List.mem_cons_self _ _⟩
      · cases h : env.funcForPC q with
        | none =>
            simp only [printLoop, h]
            obtain ⟨file, line, hm⟩ := ih _ _ _ _ hmem2 hf hgx
            exact ⟨file, line, List.mem_cons_of_mem _ hm⟩
        | some g =>
            simp only [printLoop, h]
            by_cases hc : (g.name == "runtime.goexit" ||
                (!true && List.isPrefixOf "runtime.".data g.name.data)) = true
            · rw [if_pos hc]; exact ih _ _ _ _ hmem2 hf hgx
            · rw [if_neg hc]
              obtain ⟨file, line, hm⟩ := ih _ _ _ _ hmem2 hf hgx
              exact ⟨file, line, List.mem_cons_of_mem _ hm⟩

/-- The output line is a resolved frame named `runtime.goexit`. -/
def isGoexitLine : StackLine → Prop
  | StackLine.frame _ n _ _ _ => n = "runtime.goexit"
  | _ => False

theorem printLoop_no_goexit (env : SymEnv) (stk : List Nat) :
    ∀ (i : Nat) (s w : Bool) (l : StackLine),
      l ∈ (printLoop env stk i s w).1 → ¬ isGoexitLine l := by
  induction stk with
  | nil => intro i s w l h; cases h
  | cons q rest ih =>
      intro i s w l hmem
      cases h : env.funcForPC q with
      | none =>
          rw [printLoop, h] at hmem  -- may need simp
          rcases List.mem_cons.mp hmem with rfl | hmem2
          · intro hg; cases hg
          · exact ih _ _ _ _ hmem2
      | some f =>
          simp only [printLoop, h] at hmem
          by_cases hc : (f.name == "runtime.goexit" ||
              (!s && List.isPrefixOf "runtime.".data f.name.data)) = true
          · rw [if_pos hc] at hmem; exact ih _ _ _ _ hmem
          · rw [if_neg hc] at hmem
            rcases List.mem_cons.mp hmem with rfl | hmem2
            · intro hg
              have hne : f.name ≠ "runtime.goexit" := by
                intro he
                apply hc
                simp [he]
              exact hne hg
            · exact ih _ _ _ _ hmem2

theorem printLoop_false_shown_nonempty (env : SymEnv) (stk : List Nat) :
    ∀ (i : Nat) (w : Bool), (printLoop env stk i false w).2.1 = true →
      (printLoop env stk i false w).1 ≠ [] := by
  induction stk with
  | nil => intro i w h; cases h
  | cons q rest ih =>
      intro i w hs
      cases h : env.funcForPC q with
      | none => simp [printLoop, h]
      | some f =>
          simp only [printLoop, h] at hs ⊢
          by_cases hc : (f.name == "runtime.goexit" ||
              (!false && List.isPrefixOf "runtime.".data f.name.data)) = true
          · rw [if_pos hc] at hs ⊢; exact ih _ _ hs
          · rw [if_neg hc] at hs ⊢; simp

theorem printLoop_append (env : SymEnv) (xs : List Nat) :
    ∀ (ys : List Nat) (i : Nat) (s w : Bool),
      printLoop env (xs ++ ys) i s w =
        ((printLoop env xs i s w).1 ++
          (printLoop env ys (i + xs.length) (printLoop env xs i s w).2.1
            (printLoop env xs i s w).2.2).1,
         (printLoop env ys (i + xs.length) (printLoop env xs i s w).2.1
            (printLoop env xs i s w).2.2).2) := by
  induction xs with
  | nil => intro ys i s w; simp [printLoop]
  | cons q rest ih =>
      intro ys i s w
      have e : i + 1 + rest.length = i + (q :: rest).length := by
        simp; omega
      cases h : env.funcForPC q with
      | none =>
          simp only [List.cons_append, printLoop, h, List.append_eq]
          rw [ih ys (i + 1) true false, e]
      | some f =>
          simp only [List.cons_append, printLoop, h, List.append_eq]
          by_cases hc : (f.name == "runtime.goexit" ||
              (!s && List.isPrefixOf "runtime.".data f.name.data)) = true
          · rw [if_pos hc, if_pos hc, ih ys (i + 1) s (f.name == "runtime.panic"), e]
          · rw [if_neg hc, if_neg hc, ih ys (i + 1) true (f.name == "runtime.panic"), e]
            simp

theorem printStackRecord_no_goexit (env : SymEnv) (stk : List Nat) (b : Bool) :
    ∀ l ∈ printStackRecord env stk b, ¬ isGoexitLine l := by
  intro l hmem
  simp only [printStackRecord] at hmem
  split at hmem <;>
  · rcases List.mem_append.mp hmem with h1 | h1
    · exact printLoop_no_goexit env stk _ _ _ _ h1
    · rcases List.mem_singleton.mp h1 with rfl
      intro hg; cases hg

/-- An environment in which every address resolves to `runtime.goexit`. -/
def envGoexit : SymEnv :=
  { arch := "amd64"
  , funcForPC := fun _ => some ⟨0, "runtime.goexit", fun t => ("proc.go", t)⟩ }

/-- Claim C8 (corrected part): a stack whose only frame is
`runtime.goexit` leaves the first pass empty, so the unsuppressed second
pass runs — but `runtime.goexit` is skipped in every pass, so the rendered
stack trace is still empty (only the blank separator is written). -/
theorem goexit_only_stack_renders_empty :
    (printLoop envGoexit [1] 0 false false).1 = [] ∧
    printStackRecord envGoexit [1] false = [StackLine.blank] := by
  decide

/-- Claim C8 (amended): whenever the first (suppressing) pass of
`printStackRecord` emits no line, exactly one additional pass with
suppression disabled is rendered, and that pass ends with its `show` flag
set, so the source's recursion never performs a third pass; the re-rendered
trace is non-empty provided some frame is unresolvable or resolves to a
function other than `runtime.goexit` (an all-`runtime.goexit` stack stays
empty). -/
theorem printStackRecord_second_pass (env : SymEnv) (stk : List Nat)
    (hempty : (printLoop env stk 0 false false).1 = []) :
    printStackRecord env stk false = (printLoop env stk 0 true false).1 ++ [StackLine.blank] ∧
    (printLoop env stk 0 true false).2.1 = true ∧
    ((∃ pc ∈ stk, ∀ f, env.funcForPC pc = some f → f.name ≠ "runtime.goexit") →
      ∃ l ∈ printStackRecord env stk false, l ≠ StackLine.blank) := by
  have hsf : (printLoop env stk 0 false false).2.1 = false := by
    cases hb : (printLoop env stk 0 false false).2.1 with
    | false => rfl
    | true => exact absurd hempty (printLoop_false_shown_nonempty env stk 0 false hb)
  have h1 : printStackRecord env stk false =
      (printLoop env stk 0 true false).1 ++ [StackLine.blank] := by
    simp [printStackRecord, hsf]
  refine ⟨h1, printLoop_show_true env stk 0 false, ?_⟩
  rintro ⟨pc, hmem, hok⟩
  cases hf : env.funcForPC pc with
  | none =>
      refine ⟨StackLine.raw pc, ?_, by simp⟩
      rw [h1]
      exact List.mem_append_left _ (printLoop_raw_mem env stk 0 true false pc hmem hf)
  | some f =>
      obtain ⟨file, line, hm⟩ := printLoop_frame_mem env stk 0 false pc f hmem hf (hok f hf)
      refine ⟨StackLine.frame pc f.name (usub64 pc f.entry) file line, ?_, by simp⟩
      rw [h1]
      exact List.mem_append_left _ hm

/-- An environment with a single internal runtime allocation function. -/
def envRt : SymEnv :=
  { arch := "amd64"
  , funcForPC := fun pc =>
      if pc = 1 then some ⟨0, "runtime.mallocgc", fun t => ("malloc.go", t)⟩ else none }

/-- Witness for `printStackRecord_second_pass`: a stack consisting of one
internal runtime allocation frame. -/
theorem printStackRecord_second_pass_witness :
    printStackRecord envRt [1] false = (printLoop envRt [1] 0 true false).1 ++ [StackLine.blank] ∧
    (printLoop envRt [1] 0 true false).2.1 = true ∧
    (∃ l ∈ printStackRecord envRt [1] false, l ≠ StackLine.blank) := by
  have h := printStackRecord_second_pass envRt [1] (by decide)
  refine ⟨h.1, h.2.1, h.2.2 ⟨1, by decide, ?_⟩⟩
  intro f hf
  have h2 : (⟨0, "runtime.mallocgc", fun t => ("malloc.go", t)⟩ : GoFunc) = f :=
    Option.some.inj hf
  rw [← h2]
  decide

/-- Claim C10: once a frame of the first pass fails to resolve (and is
printed as a bare address line), suppression is disabled for the remainder
of the stack: every later resolvable frame not named `runtime.goexit` is
printed even when its name carries the `runtime.` prefix, while
`runtime.goexit` frames are skipped in every pass of `printStackRecord`. -/
theorem unresolved_frame_disables_suppression (env : SymEnv) (xs ys : List Nat) (pcB : Nat)
    (hB : env.funcForPC pcB = none) :
    (∀ pc f, pc ∈ ys → env.funcForPC pc = some f → f.name ≠ "runtime.goexit" →
      ∃ file line, StackLine.frame pc f.name (usub64 pc f.entry) file line ∈
        (printLoop env (xs ++ pcB :: ys) 0 false false).1) ∧
    (∀ (b : Bool) (l : StackLine),
      l ∈ printStackRecord env (xs ++ pcB :: ys) b → ¬ isGoexitLine l) := by
  constructor
  · intro pc f hmem hf hgx
    rw [printLoop_append env xs (pcB :: ys) 0 false false]
    have hstep : printLoop env (pcB :: ys) (0 + xs.length)
        (printLoop env xs 0 false false).2.1 (printLoop env xs 0 false false).2.2 =
        (StackLine.raw pcB :: (printLoop env ys (0 + xs.length + 1) true false).1,
         (printLoop env ys (0 + xs.length + 1) true false).2) := by
      simp [printLoop, hB]
    rw [hstep]
    obtain ⟨file, line, hm⟩ :=
      printLoop_frame_mem env ys (0 + xs.length + 1) false pc f hmem hf hgx
    exact ⟨file, line, List.mem_append_right _ (List.mem_cons_of_mem _ hm)⟩
  · intro b l hmem
    exact printStackRecord_no_goexit env (xs ++ pcB :: ys) b l hmem

/-- An environment resolving address 8 to an internal runtime function and
nothing else. -/
def envRaw : SymEnv :=
  { arch := "amd64"
  , funcForPC := fun pc =>
      if pc = 8 then some ⟨0, "runtime.mallocgc", fun t => ("malloc.go", t)⟩ else none }

/-- Witness for `unresolved_frame_disables_suppression`: an unresolvable
address followed by an internal runtime frame. -/
theorem unresolved_frame_disables_suppression_witness :
    (∃ file line, StackLine.frame 8 "runtime.mallocgc" (usub64 8 0) file line ∈
      (printLoop envRaw [7, 8] 0 false false).1) ∧
    ¬ isGoexitLine (StackLine.raw 7) := by
  have h := unresolved_frame_disables_suppression envRaw [] [8] 7 rfl
  refine ⟨?_, ?_⟩
  · exact h.1 8 ⟨0, "runtime.mallocgc", fun t => ("malloc.go", t)⟩ (by decide) rfl (by decide)
  · exact h.2 false (StackLine.raw 7) (by decide)

theorem wrap64_eq_self {n : Int} (h : int64Range n) : wrap64 n = n := by
  obtain ⟨h1, h2⟩ := h
  have p63 : (2 : Int) ^ 63 = 9223372036854775808 := by norm_num
  have p64 : (2 : Int) ^ 64 = 18446744073709551616 := by norm_num
  unfold wrap64
  rw [p63] at h1 h2
  rw [p63, p64, Int.emod_eq_of_lt (by omega) (by omega)]
  omega

theorem i64add_eq_add {a b : Int} (h : int64Range (a + b)) : i64add a b = a + b :=
  wrap64_eq_self h

theorem i64sub_eq_sub {a b : Int} (h : int64Range (a - b)) : i64sub a b = a - b :=
  wrap64_eq_self h

theorem lookupKey_setKey_self (h : Nat) (v : MemProfileRecord) :
    ∀ pm, lookupKey h (setKey h v pm) = some v := by
  intro pm
  induction pm with
  | nil => simp [setKey, lookupKey]
  | cons e t ih =>
      obtain ⟨k, w⟩ := e
      by_cases hk : k = h
      · subst hk; simp [setKey, lookupKey]
      · simp [setKey, lookupKey, hk, ih]

theorem lookupKey_setKey_ne (h k : Nat) (v : MemProfileRecord) (hne : k ≠ h) :
    ∀ pm, lookupKey k (setKey h v pm) = lookupKey k pm := by
  intro pm
  induction pm with
  | nil =>
      simp only [setKey, lookupKey]
      rw [if_neg (fun he : h = k => hne he.symm)]
  | cons e t ih =>
      obtain ⟨k2, w⟩ := e
      by_cases hk : k2 = h
      · subst hk
        have hkk : ¬ k2 = k := fun he => hne he.symm
        simp [setKey, lookupKey, hkk]
      · simp only [setKey, if_neg hk, lookupKey]
        by_cases hk2 : k2 = k
        · simp [hk2]
        · simp [hk2, ih]

/-- The merge `Heap` applies at key `h` while scanning one record. -/
def stepAt (h : Nat) (acc : Option MemProfileRecord) (r : MemProfileRecord) :
    Option MemProfileRecord :=
  if stackHash r.stack0 = h then
    some (match acc with | some old => mergeRec old r | none => r)
  else acc

theorem lookupKey_insertRecord (pm : List (Nat × MemProfileRecord))
    (r : MemProfileRecord) (h : Nat) :
    lookupKey h (insertRecord pm r) = stepAt h (lookupKey h pm) r := by
  by_cases he : stackHash r.stack0 = h
  · subst he
    unfold insertRecord stepAt
    cases hl : lookupKey (stackHash r.stack0) pm with
    | none => simp [hl, lookupKey_setKey_self]
    | some old => simp [hl, lookupKey_setKey_self]
  · unfold insertRecord stepAt
    have hne : h ≠ stackHash r.stack0 := fun hx => he hx.symm
    cases hl : lookupKey (stackHash r.stack0) pm with
    | none => simp [he, hl, lookupKey_setKey_ne _ _ _ hne]
    | some old => simp [he, hl, lookupKey_setKey_ne _ _ _ hne]

theorem lookupKey_dedup_fold (p : List MemProfileRecord) :
    ∀ (pm : List (Nat × MemProfileRecord)) (h : Nat),
      lookupKey h (p.foldl insertRecord pm) = p.foldl (stepAt h) (lookupKey h pm) := by
  induction p with
  | nil => intro pm h; rfl
  | cons r rest ih =>
      intro pm h
      simp only [List.foldl_cons]
      rw [ih (insertRecord pm r) h, lookupKey_insertRecord]

theorem foldl_stepAt_filter (h : Nat) (p : List MemProfileRecord) :
    ∀ acc, p.foldl (stepAt h) acc =
      (p.filter fun r => decide (stackHash r.stack0 = h)).foldl
        (fun a r => some (match a with | some old => mergeRec old r | none => r)) acc := by
  induction p with
  | nil => intro acc; rfl
  | cons r rest ih =>
      intro acc
      by_cases he : stackHash r.stack0 = h
      · simp [List.filter_cons, he, stepAt, ih]
      · simp [List.filter_cons, he, stepAt, ih]

theorem setKey_map_fst (h : Nat) (v : MemProfileRecord) :
    ∀ pm : List (Nat × MemProfileRecord),
      (setKey h v pm).map Prod.fst =
        if h ∈ pm.map Prod.fst then pm.map Prod.fst else pm.map Prod.fst ++ [h] := by
  intro pm
  induction pm with
  | nil => simp [setKey]
  | cons e t ih =>
      obtain ⟨k, w⟩ := e
      by_cases hk : k = h
      · subst hk; simp [setKey]
      · have hk2 : ¬ h = k := fun he => hk he.symm
        simp only [setKey, if_neg hk, List.map_cons, List.mem_cons, hk2, false_or]
        rw [ih]
        by_cases hmem : h ∈ t.map Prod.fst
        · simp [hmem]
        · simp [hmem]

theorem setKey_keys_nodup (h : Nat) (v : MemProfileRecord)
    (pm : List (Nat × MemProfileRecord)) (hn : (pm.map Prod.fst).Nodup) :
    ((setKey h v pm).map Prod.fst).Nodup := by
  rw [setKey_map_fst]
  by_cases hmem : h ∈ pm.map Prod.fst
  · simp [hmem, hn]
  · simp [hmem, List.nodup_append, hn]

theorem dedup_fold_keys_nodup (p : List MemProfileRecord) :
    ∀ pm : List (Nat × MemProfileRecord), (pm.map Prod.fst).Nodup →
      (((p.foldl insertRecord pm).map Prod.fst)).Nodup := by
  induction p with
  | nil => intro pm hn; exact hn
  | cons r rest ih =>
      intro pm hn
      simp only [List.foldl_cons]
      apply ih
      unfold insertRecord
      cases hl : lookupKey (stackHash r.stack0) pm with
      | none => simpa [hl] using setKey_keys_nodup _ _ pm hn
      | some old => simpa [hl] using setKey_keys_nodup _ _ pm hn

theorem dedup_keys_nodup (p : List MemProfileRecord) :
    ((dedup p).map Prod.fst).Nodup :=
  dedup_fold_keys_nodup p [] (by simp)

theorem setKey_mem (h : Nat) (v : MemProfileRecord) :
    ∀ (pm : List (Nat × MemProfileRecord)) (e : Nat × MemProfileRecord),
      e ∈ setKey h v pm → e = (h, v) ∨ e ∈ pm := by
  intro pm
  induction pm with
  | nil =>
      intro e he
      simp only [setKey, List.mem_singleton] at he
      exact Or.inl he
  | cons q t ih =>
      obtain ⟨k, w⟩ := q
      intro e he
      by_cases hk : k = h
      · subst hk
        simp only [setKey, if_pos rfl] at he
        rcases List.mem_cons.mp he with he1 | he2
        · exact Or.inl he1
        · exact Or.inr (List.mem_cons_of_mem _ he2)
      · simp only [setKey, if_neg hk] at he
        rcases List.mem_cons.mp he with he1 | he2
        · exact Or.inr (by rw [he1]; exact List.mem_cons_self _ _)
        · rcases ih e he2 with h1 | h1
          · exact Or.inl h1
          · exact Or.inr (List.mem_cons_of_mem _ h1)

theorem dedup_fold_entry_hash (p : List MemProfileRecord) :
    ∀ pm : List (Nat × MemProfileRecord),
      (∀ e ∈ pm, stackHash (e.2).stack0 = e.1) →
      ∀ e ∈ p.foldl insertRecord pm, stackHash (e.2).stack0 = e.1 := by
  induction p with
  | nil => intro pm hinv; exact hinv
  | cons r rest ih =>
      intro pm hinv
      simp only [List.foldl_cons]
      apply ih
      intro e he
      cases hl : lookupKey (stackHash r.stack0) pm with
      | none =>
          simp only [insertRecord, hl] at he
          rcases setKey_mem _ _ _ _ he with he1 | hm
          · rw [he1]
          · exact hinv _ hm
      | some old =>
          simp only [insertRecord, hl] at he
          rcases setKey_mem _ _ _ _ he with he1 | hm
          · rw [he1]; simp [mergeRec]
          · exact hinv _ hm

theorem dedup_entry_hash (p : List MemProfileRecord) :
    ∀ e ∈ dedup p, stackHash (e.2).stack0 = e.1 :=
  dedup_fold_entry_hash p [] (by simp)

theorem lookupKey_of_mem_nodup :
    ∀ (pm : List (Nat × MemProfileRecord)), ((pm.map Prod.fst).Nodup) →
      ∀ e ∈ pm, lookupKey e.1 pm = some e.2 := by
  intro pm
  induction pm with
  | nil => intro _ e he; cases he
  | cons q t ih =>
      obtain ⟨k, w⟩ := q
      intro hn e he
      have hn2 : k ∉ t.map Prod.fst ∧ (t.map Prod.fst).Nodup := by
        rw [List.map_cons] at hn
        exact List.nodup_cons.mp hn
      rcases List.mem_cons.mp he with he1 | he2
      · rw [he1]; simp [lookupKey]
      · have hkey : e.1 ∈ t.map Prod.fst := List.mem_map_of_mem _ he2
        have hk : ¬ k = e.1 := by
          intro hke
          rw [hke] at hn2
          exact hn2.1 hkey
        simp only [lookupKey, if_neg hk]
        exact ih hn2.2 e he2

theorem countP_key_eq_one (H : Nat) :
    ∀ pm : List (Nat × MemProfileRecord), ((pm.map Prod.fst).Nodup) →
      (∃ v, lookupKey H pm = some v) →
      pm.countP (fun e => decide (e.1 = H)) = 1 := by
  intro pm
  induction pm with
  | nil => rintro _ ⟨v, hv⟩; cases hv
  | cons q t ih =>
      obtain ⟨k, w⟩ := q
      rintro hn ⟨v, hv⟩
      have hn2 : k ∉ t.map Prod.fst ∧ (t.map Prod.fst).Nodup := by
        rw [List.map_cons] at hn
        exact List.nodup_cons.mp hn
      by_cases hk : k = H
      · subst hk
        have hz : t.countP (fun e => decide (e.1 = k)) = 0 := by
          rw [List.countP_eq_zero]
          intro e he hek
          apply hn2.1
          have he1 : e.1 = k := by simpa using hek
          rw [← he1]
          exact List.mem_map_of_mem _ he
        rw [List.countP_cons]
        simp [hz]
      · have hlk : lookupKey H t = some v := by
          simpa [lookupKey, hk] using hv
        rw [List.countP_cons]
        have hd : (decide ((k, w).1 = H) : Bool) = false := by simpa using hk
        rw [hd]
        simp [ih hn2.2 ⟨v, hlk⟩]

theorem sortRecords_perm (key : String) (l : List MemProfileRecord) :
    (sortRecords key l).Perm l := by
  unfold sortRecords
  split
  · exact List.perm_insertionSort _ _
  · split
    · exact List.perm_insertionSort _ _
    · split
      · exact List.perm_insertionSort _ _
      · exact List.perm_insertionSort _ _

theorem i64add_comm_eq {a b : Int} (h : int64Range (a + b)) : i64add b a = a + b := by
  unfold i64add
  rw [add_comm b a]
  exact wrap64_eq_self h

/-- Claim C1: if a captured profile contains exactly two records whose
stacks agree (list `s`, the only records hashing to `s`'s aggregation key),
the rendered report contains exactly one record for that stack, and its
allocated/freed byte and object counters are the sums of the two inputs
(the sums are assumed to fit in `int64`, as `Heap`'s counter additions
wrap). -/
theorem Heap_merges_duplicate_stacks (key : String) (p : List MemProfileRecord)
    (r1 r2 : MemProfileRecord) (s : List Nat)
    (h1 : r1.stack0 = s) (h2 : r2.stack0 = s)
    (honly : p.filter (fun r => decide (stackHash r.stack0 = stackHash s)) = [r1, r2])
    (hab : int64Range (r1.allocBytes + r2.allocBytes))
    (hfb : int64Range (r1.freeBytes + r2.freeBytes))
    (hao : int64Range (r1.allocObjects + r2.allocObjects))
    (hfo : int64Range (r1.freeObjects + r2.freeObjects)) :
    (heapRendered key p).countP (fun r => decide (r.stack0 = s)) = 1 ∧
    ∀ m ∈ heapRendered key p, m.stack0 = s →
      m.allocBytes = r1.allocBytes + r2.allocBytes ∧
      m.freeBytes = r1.freeBytes + r2.freeBytes ∧
      m.allocObjects = r1.allocObjects + r2.allocObjects ∧
      m.freeObjects = r1.freeObjects + r2.freeObjects := by
  have hlook : lookupKey (stackHash s) (dedup p) = some (mergeRec r1 r2) := by
    have hfold := lookupKey_dedup_fold p [] (stackHash s)
    simp only [dedup]
    rw [hfold, foldl_stepAt_filter, honly]
    rfl
  have hmerge : ∀ e ∈ dedup p, e.1 = stackHash s → e.2 = mergeRec r1 r2 := by
    intro e he hk
    have hl2 := lookupKey_of_mem_nodup (dedup p) (dedup_keys_nodup p) e he
    rw [hk, hlook] at hl2
    exact (Option.some.inj hl2).symm
  have hiff : ∀ e ∈ dedup p, (e.2.stack0 = s ↔ e.1 = stackHash s) := by
    intro e he
    constructor
    · intro hst
      rw [← dedup_entry_hash p e he, hst]
    · intro hk
      rw [hmerge e he hk]
      simp [mergeRec, h2]
  constructor
  · have hp1 : (heapRendered key p).countP (fun r => decide (r.stack0 = s)) =
        (dedupRecords p).countP (fun r => decide (r.stack0 = s)) :=
      List.Perm.countP_eq _ (sortRecords_perm key (dedupRecords p))
    rw [hp1, dedupRecords, List.countP_map]
    have hc : (dedup p).countP ((fun r => decide (r.stack0 = s)) ∘ Prod.snd) =
        (dedup p).countP (fun e => decide (e.1 = stackHash s)) := by
      apply List.countP_congr
      intro e he
      simpa using hiff e he
    rw [hc]
    exact countP_key_eq_one (stackHash s) (dedup p) (dedup_keys_nodup p)
      ⟨mergeRec r1 r2, hlook⟩
  · intro m hm hstack
    have hm2 : m ∈ dedupRecords p :=
      ((sortRecords_perm key (dedupRecords p)).mem_iff).mp hm
    obtain ⟨e, he, heq⟩ := List.mem_map.mp hm2
    have hk : e.1 = stackHash s := (hiff e he).mp (by rw [heq]; exact hstack)
    have hme : e.2 = mergeRec r1 r2 := hmerge e he hk
    have hmm : m = mergeRec r1 r2 := by rw [← heq, hme]
    rw [hmm]
    exact ⟨i64add_comm_eq hab, i64add_comm_eq hfb, i64add_comm_eq hao, i64add_comm_eq hfo⟩

/-- Witness for `Heap_merges_duplicate_stacks`: two concrete records with
stack `[5, 6]`. -/
theorem Heap_merges_duplicate_stacks_witness :
    (heapRendered "" [⟨1, 2, 3, 4, [5, 6]⟩, ⟨10, 20, 30, 40, [5, 6]⟩]).countP
      (fun r => decide (r.stack0 = [5, 6])) = 1 :=
  (Heap_merges_duplicate_stacks "" [⟨1, 2, 3, 4, [5, 6]⟩, ⟨10, 20, 30, 40, [5, 6]⟩]
    ⟨1, 2, 3, 4, [5, 6]⟩ ⟨10, 20, 30, 40, [5, 6]⟩ [5, 6]
    rfl rfl (by decide) (by decide) (by decide) (by decide) (by decide)).1

theorem totalRecord_proj (q : List MemProfileRecord) :
    ∀ t : MemProfileRecord,
      (q.foldl totalStepFn t).allocBytes =
        (q.map (fun r => r.allocBytes)).foldl i64add t.allocBytes ∧
      (q.foldl totalStepFn t).freeBytes =
        (q.map (fun r => r.freeBytes)).foldl i64add t.freeBytes ∧
      (q.foldl totalStepFn t).allocObjects =
        (q.map (fun r => r.allocObjects)).foldl i64add t.allocObjects ∧
      (q.foldl totalStepFn t).freeObjects =
        (q.map (fun r => r.freeObjects)).foldl i64add t.freeObjects := by
  induction q with
  | nil => intro t; exact ⟨rfl, rfl, rfl, rfl⟩
  | cons r rest ih =>
      intro t
      obtain ⟨e1, e2, e3, e4⟩ := ih (totalStepFn t r)
      refine ⟨?_, ?_, ?_, ?_⟩
      · rw [List.foldl_cons, List.map_cons, List.foldl_cons, e1]; rfl
      · rw [List.foldl_cons, List.map_cons, List.foldl_cons, e2]; rfl
      · rw [List.foldl_cons, List.map_cons, List.foldl_cons, e3]; rfl
      · rw [List.foldl_cons, List.map_cons, List.foldl_cons, e4]; rfl

theorem foldl_i64add_eq_sum :
    ∀ (l : List Int) (acc : Int), 0 ≤ acc → (∀ x ∈ l, 0 ≤ x) →
      acc + l.sum < 2 ^ 63 → l.foldl i64add acc = acc + l.sum := by
  intro l
  induction l with
  | nil => intro acc _ _ _; simp
  | cons x xs ih =>
      intro acc hacc hnn hbound
      have hx : 0 ≤ x := hnn x (List.mem_cons_self _ _)
      have hxs : ∀ y ∈ xs, 0 ≤ y := fun y hy => hnn y (List.mem_cons_of_mem _ hy)
      have hsum : 0 ≤ xs.sum := List.sum_nonneg hxs
      have hb2 : acc + x + xs.sum < 2 ^ 63 := by
        rw [List.sum_cons] at hbound
        linarith
      have hax : i64add acc x = acc + x := by
        apply i64add_eq_add
        constructor
        · have : (0:Int) ≤ acc + x := by linarith
          have hp : (0:Int) ≤ 2 ^ 63 := by positivity
          linarith
        · linarith
      rw [List.foldl_cons, hax, ih (acc + x) (by linarith) hxs hb2, List.sum_cons]
      ring

theorem sum_map_i64sub (f g : MemProfileRecord → Int) :
    ∀ l : List MemProfileRecord, (∀ r ∈ l, int64Range (f r - g r)) →
      (l.map fun r => i64sub (f r) (g r)).sum = (l.map f).sum - (l.map g).sum := by
  intro l
  induction l with
  | nil => intro _; simp
  | cons r rest ih =>
      intro hr
      have h1 : i64sub (f r) (g r) = f r - g r :=
        i64sub_eq_sub (hr r (List.mem_cons_self _ _))
      have h2 := ih fun x hx => hr x (List.mem_cons_of_mem _ hx)
      simp only [List.map_cons, List.sum_cons, h1, h2]
      ring

/-- Claim C2: the four figures printed in the report's header line equal
the sums of the corresponding figures over all rendered records — in
particular the in-use byte figure equals the sum of in-use bytes of the
rendered records (assuming, as the source's wrapping `int64` additions
require, that counters are nonnegative and the four column sums fit in
`int64`). -/
theorem Heap_header_totals (key : String) (p : List MemProfileRecord)
    (hnn : ∀ r ∈ heapRendered key p,
      0 ≤ r.allocBytes ∧ 0 ≤ r.freeBytes ∧ 0 ≤ r.allocObjects ∧ 0 ≤ r.freeObjects)
    (hab : ((heapRendered key p).map (fun r => r.allocBytes)).sum < 2 ^ 63)
    (hfb : ((heapRendered key p).map (fun r => r.freeBytes)).sum < 2 ^ 63)
    (hao : ((heapRendered key p).map (fun r => r.allocObjects)).sum < 2 ^ 63)
    (hfo : ((heapRendered key p).map (fun r => r.freeObjects)).sum < 2 ^ 63) :
    headerCounts key p =
      (((heapRendered key p).map MemProfileRecord.inUseObjects).sum,
       ((heapRendered key p).map MemProfileRecord.inUseBytes).sum,
       ((heapRendered key p).map (fun r => r.allocObjects)).sum,
       ((heapRendered key p).map (fun r => r.allocBytes)).sum) := by
  have hnnA : ∀ x ∈ (heapRendered key p).map (fun r => r.allocBytes), 0 ≤ x := by
    intro x hx
    obtain ⟨r, hr, rfl⟩ := List.mem_map.mp hx
    exact (hnn r hr).1
  have hnnF : ∀ x ∈ (heapRendered key p).map (fun r => r.freeBytes), 0 ≤ x := by
    intro x hx
    obtain ⟨r, hr, rfl⟩ := List.mem_map.mp hx
    exact (hnn r hr).2.1
  have hnnAO : ∀ x ∈ (heapRendered key p).map (fun r => r.allocObjects), 0 ≤ x := by
    intro x hx
    obtain ⟨r, hr, rfl⟩ := List.mem_map.mp hx
    exact (hnn r hr).2.2.1
  have hnnFO : ∀ x ∈ (heapRendered key p).map (fun r => r.freeObjects), 0 ≤ x := by
    intro x hx
    obtain ⟨r, hr, rfl⟩ := List.mem_map.mp hx
    exact (hnn r hr).2.2.2
  have hsA : 0 ≤ ((heapRendered key p).map (fun r => r.allocBytes)).sum :=
    List.sum_nonneg hnnA
  have hsF : 0 ≤ ((heapRendered key p).map (fun r => r.freeBytes)).sum :=
    List.sum_nonneg hnnF
  have hsAO : 0 ≤ ((heapRendered key p).map (fun r => r.allocObjects)).sum :=
    List.sum_nonneg hnnAO
  have hsFO : 0 ≤ ((heapRendered key p).map (fun r => r.freeObjects)).sum :=
    List.sum_nonneg hnnFO
  have hTa : (heapTotal key p).allocBytes =
      ((heapRendered key p).map (fun r => r.allocBytes)).sum := by
    have hp := (totalRecord_proj (heapRendered key p) ⟨0, 0, 0, 0, List.replicate 32 0⟩).1
    show (totalRecord (heapRendered key p)).allocBytes = _
    rw [totalRecord, hp]
    show ((heapRendered key p).map (fun r => r.allocBytes)).foldl i64add 0 = _
    rw [foldl_i64add_eq_sum _ 0 (le_refl 0) hnnA (by simpa using hab)]
    simp
  have hTf : (heapTotal key p).freeBytes =
      ((heapRendered key p).map (fun r => r.freeBytes)).sum := by
    have hp := (totalRecord_proj (heapRendered key p) ⟨0, 0, 0, 0, List.replicate 32 0⟩).2.1
    show (totalRecord (heapRendered key p)).freeBytes = _
    rw [totalRecord, hp]
    show ((heapRendered key p).map (fun r => r.freeBytes)).foldl i64add 0 = _
    rw [foldl_i64add_eq_sum _ 0 (le_refl 0) hnnF (by simpa using hfb)]
    simp
  have hTao : (heapTotal key p).allocObjects =
      ((heapRendered key p).map (fun r => r.allocObjects)).sum := by
    have hp := (totalRecord_proj (heapRendered key p) ⟨0, 0, 0, 0, List.replicate 32 0⟩).2.2.1
    show (totalRecord (heapRendered key p)).allocObjects = _
    rw [totalRecord, hp]
    show ((heapRendered key p).map (fun r => r.allocObjects)).foldl i64add 0 = _
    rw [foldl_i64add_eq_sum _ 0 (le_refl 0) hnnAO (by simpa using hao)]
    simp
  have hTfo : (heapTotal key p).freeObjects =
      ((heapRendered key p).map (fun r => r.freeObjects)).sum := by
    have hp := (totalRecord_proj (heapRendered key p) ⟨0, 0, 0, 0, List.replicate 32 0⟩).2.2.2
    show (totalRecord (heapRendered key p)).freeObjects = _
    rw [totalRecord, hp]
    show ((heapRendered key p).map (fun r => r.freeObjects)).foldl i64add 0 = _
    rw [foldl_i64add_eq_sum _ 0 (le_refl 0) hnnFO (by simpa using hfo)]
    simp
  have hRib : ((heapRendered key p).map MemProfileRecord.inUseBytes).sum =
      ((heapRendered key p).map (fun r => r.allocBytes)).sum -
        ((heapRendered key p).map (fun r => r.freeBytes)).sum := by
    apply sum_map_i64sub (fun r => r.allocBytes) (fun r => r.freeBytes)
    intro r hr
    have h1 : r.allocBytes ≤ ((heapRendered key p).map (fun r => r.allocBytes)).sum :=
      List.single_le_sum hnnA _ (List.mem_map_of_mem _ hr)
    have h2 : r.freeBytes ≤ ((heapRendered key p).map (fun r => r.freeBytes)).sum :=
      List.single_le_sum hnnF _ (List.mem_map_of_mem _ hr)
    constructor
    · have := (hnn r hr).1
      linarith
    · have := (hnn r hr).2.1
      linarith
  have hRio : ((heapRendered key p).map MemProfileRecord.inUseObjects).sum =
      ((heapRendered key p).map (fun r => r.allocObjects)).sum -
        ((heapRendered key p).map (fun r => r.freeObjects)).sum := by
    apply sum_map_i64sub (fun r => r.allocObjects) (fun r => r.freeObjects)
    intro r hr
    have h1 : r.allocObjects ≤ ((heapRendered key p).map (fun r => r.allocObjects)).sum :=
      List.single_le_sum hnnAO _ (List.mem_map_of_mem _ hr)
    have h2 : r.freeObjects ≤ ((heapRendered key p).map (fun r => r.freeObjects)).sum :=
      List.single_le_sum hnnFO _ (List.mem_map_of_mem _ hr)
    constructor
    · have := (hnn r hr).2.2.1
      linarith
    · have := (hnn r hr).2.2.2
      linarith
  have hTib : (heapTotal key p).inUseBytes =
      ((heapRendered key p).map MemProfileRecord.inUseBytes).sum := by
    show i64sub (heapTotal key p).allocBytes (heapTotal key p).freeBytes = _
    rw [hTa, hTf, hRib]
    apply i64sub_eq_sub
    constructor
    · linarith
    · linarith
  have hTio : (heapTotal key p).inUseObjects =
      ((heapRendered key p).map MemProfileRecord.inUseObjects).sum := by
    show i64sub (heapTotal key p).allocObjects (heapTotal key p).freeObjects = _
    rw [hTao, hTfo, hRio]
    apply i64sub_eq_sub
    constructor
    · linarith
    · linarith
  show ((heapTotal key p).inUseObjects, (heapTotal key p).inUseBytes,
    (heapTotal key p).allocObjects, (heapTotal key p).allocBytes) = _
  rw [hTio, hTib, hTao, hTa]

/-- Witness for `Heap_header_totals`: a concrete two-record profile. -/
theorem Heap_header_totals_witness :
    headerCounts "" [⟨4, 1, 2, 1, [5]⟩, ⟨8, 2, 3, 1, [6]⟩] =
      (((heapRendered "" [⟨4, 1, 2, 1, [5]⟩, ⟨8, 2, 3, 1, [6]⟩]).map
          MemProfileRecord.inUseObjects).sum,
       ((heapRendered "" [⟨4, 1, 2, 1, [5]⟩, ⟨8, 2, 3, 1, [6]⟩]).map
          MemProfileRecord.inUseBytes).sum,
       ((heapRendered "" [⟨4, 1, 2, 1, [5]⟩, ⟨8, 2, 3, 1, [6]⟩]).map
          (fun r => r.allocObjects)).sum,
       ((heapRendered "" [⟨4, 1, 2, 1, [5]⟩, ⟨8, 2, 3, 1, [6]⟩]).map
          (fun r => r.allocBytes)).sum) :=
  Heap_header_totals "" [⟨4, 1, 2, 1, [5]⟩, ⟨8, 2, 3, 1, [6]⟩]
    (by decide) (by decide) (by decide) (by decide) (by decide)
